import Mathlib

/-!
Shallow embedding of the command ingestion and deployment orchestrator of the
`lessgo` repository (Python sources under `src/scripts` and `src/services`),
together with proofs about the claims of its specification.

Conventions of the embedding:

* Python strings are modelled as `List Char`.  All character classes are taken
  at their ASCII meaning (the command grammar of the source only involves
  ASCII: the handle `feedo3app`, the verbs `deploy`/`launch`, `$`, and the
  ticker alphabet `A-Z0-9`); `str.lower()` / `str.upper()` become
  `Char.toLower` / `Char.toUpper` maps, which agree with Python on ASCII.
* The regular-expression patterns of `parse_deploy_command`
  (`src/scripts/complete_workflow.py`, lines 82-105) are embedded as
  deterministic matchers.  This is faithful because for these two concrete
  patterns Python's backtracking has a unique outcome at every start
  position: `\s+`, `\w+` and the literal pieces (`@feedo3app`,
  `deploy`/`launch`, `$`) draw from pairwise disjoint character classes, so a
  greedy run followed by a disjoint continuation can never succeed after
  giving characters back, and the two verb alternatives differ in their first
  letter.  `re.search` semantics (try each start position from the left) is
  `searchAux` below.
* The orchestrator `process_comment` (`complete_workflow.py`, lines 379-601)
  is embedded as a pure function from an environment of external
  collaborators (`Env`: the Store, the Asset Acquirer, the Deployer) and the
  in-memory seen-set to the new seen-set, a trace of external calls
  (`Event`), and the terminal outcome for the comment.  Exceptions of the
  Python collaborators are part of `Env` (a failing Store call is `none`,
  exactly the `None` produced by `DatabaseService._call_db`).  The one
  uncaught exception path inside the handler itself — the success-branch
  record-file write of lines 534-561, which is not wrapped in try/except —
  is modelled by `Env.recordOk`: when it raises, the handler aborts after
  the Deployer, Notifier and save calls but before the seen-set add of
  line 601, and `main` catches the exception at the cycle boundary.  The
  Notifier's own result only feeds the recorded reply id, not the control
  flow, so it does not appear in `Env`.
-/

/-- Python `\w` on ASCII: letters, digits and underscore
(`parse_deploy_command` uses `\w+` for the token name and the ticker). -/
def isWordChar (c : Char) : Bool :=
  c.isAlpha || c.isDigit || c == '_'

/-- Python `\s` on ASCII: space, tab, newline, carriage return, vertical tab,
form feed. -/
def isSpaceChar (c : Char) : Bool :=
  c == ' ' || c == '\t' || c == '\n' || c == '\r' || c == '\x0b' || c == '\x0c'

/-- Python `str.isalnum` per character, on ASCII: a letter or a digit. -/
def isAlnumChar (c : Char) : Bool :=
  c.isAlpha || c.isDigit

/-- Case-insensitive literal match (the `re.IGNORECASE` flag of both regex
searches): `matchLit lit s` consumes `lit` from the front of `s`, comparing
characters after `Char.toLower`, and returns the rest of `s`. -/
def matchLit : List Char → List Char → Option (List Char)
  | [], s => some s
  | _ :: _, [] => none
  | l :: ls, c :: cs => if c.toLower = l.toLower then matchLit ls cs else none

/-- `\s+` (greedy, at least one): consumes the maximal whitespace run and
fails when it is empty.  Maximality is faithful to backtracking because every
continuation of `\s+` in the source patterns starts with a non-whitespace
character. -/
def spaceRun1 (s : List Char) : Option (List Char) :=
  match s.takeWhile isSpaceChar with
  | [] => none
  | _ :: _ => some (s.dropWhile isSpaceChar)

/-- `(\w+)` (greedy, at least one): the maximal word-character run and the
rest.  Maximality is faithful because the continuations (`\s+`, end of
pattern) cannot consume a word character. -/
def wordRun1 (s : List Char) : Option (List Char × List Char) :=
  match s.takeWhile isWordChar with
  | [] => none
  | _ :: _ => some (s.takeWhile isWordChar, s.dropWhile isWordChar)

/-- The shared tail `\s+(\w+)\s+\$(\w+)` of both patterns of
`parse_deploy_command`: whitespace, the token name, whitespace, a literal
`$`, the ticker.  Returns the two capture groups. -/
def matchNameTicker (s : List Char) : Option (List Char × List Char) :=
  match spaceRun1 s with
  | none => none
  | some s1 =>
    match wordRun1 s1 with
    | none => none
    | some (nm, s2) =>
      match spaceRun1 s2 with
      | none => none
      | some s3 =>
        match s3 with
        | c :: s4 =>
          if c = '$' then
            match wordRun1 s4 with
            | none => none
            | some (tk, _) => some (nm, tk)
          else none
        | [] => none

/-- Pattern 1 of `parse_deploy_command` (line 85):
`@{user}\s+(?:deploy|launch)\s+(\w+)\s+\$(\w+)` tried at one start position.
The two verb alternatives differ in their first letter, so trying `deploy`
before `launch` without backtracking is the regex semantics. -/
def matchP1At (u : List Char) (s : List Char) : Option (List Char × List Char) :=
  match matchLit ('@' :: u) s with
  | none => none
  | some r1 =>
    match spaceRun1 r1 with
    | none => none
    | some r2 =>
      match matchLit "deploy".toList r2 with
      | some r3 => matchNameTicker r3
      | none =>
        match matchLit "launch".toList r2 with
        | some r3 => matchNameTicker r3
        | none => none

/-- Pattern 2 of `parse_deploy_command` (line 87):
`@{user}\s+(\w+)\s+\$(\w+)` tried at one start position. -/
def matchP2At (u : List Char) (s : List Char) : Option (List Char × List Char) :=
  match matchLit ('@' :: u) s with
  | none => none
  | some r1 => matchNameTicker r1

/-- `re.search`: try the pattern at every start position, leftmost first
(including the empty suffix, where both patterns fail). -/
def searchAux (m : List Char → Option (List Char × List Char)) :
    List Char → Option (List Char × List Char)
  | [] => m []
  | c :: cs =>
    match m (c :: cs) with
    | some r => some r
    | none => searchAux m cs

/-- Lines 89-91 of `complete_workflow.py`: search pattern 1 over the whole
text; only if it has no match anywhere, search pattern 2. -/
def searchBoth (text : List Char) (u : List Char) : Option (List Char × List Char) :=
  match searchAux (matchP1At u) text with
  | some g => some g
  | none => searchAux (matchP2At u) text

/-- Line 98 of `complete_workflow.py`: the ticker (already upper-cased) must
have length 3 to 10 and be alphanumeric (`str.isalnum`; nonemptiness is
subsumed by the length bound). -/
def validTicker (t : List Char) : Bool :=
  3 ≤ t.length && t.length ≤ 10 && t.all isAlnumChar

/-- `parse_deploy_command(comment_text, our_username)` (lines 82-105).
`some (name, ticker)` is the `{'name':…, 'ticker':…, 'valid': True}` result;
`none` is `{'valid': False}` (the code attaches no reason to a rejection). -/
def parse_deploy_command (text : List Char) (u : List Char) :
    Option (List Char × List Char) :=
  match searchBoth text u with
  | none => none
  | some (nm, tk) =>
    let ticker := tk.map Char.toUpper
    if validTicker ticker then some (nm, ticker) else none

/-- `p.isPrefixOf s` written out, used by the substring check below. -/
def listStarts : List Char → List Char → Bool
  | [], _ => true
  | _ :: _, [] => false
  | p :: ps, c :: cs => p == c && listStarts ps cs

/-- Python's `pat in s` substring containment. -/
def containsSub (p : List Char) : List Char → Bool
  | [] => p.isEmpty
  | c :: cs => listStarts p (c :: cs) || containsSub p cs

/-- `OUR_USERNAME = 'feedo3app'` (line 28). -/
def OUR_USERNAME : List Char := "feedo3app".toList


/-- One comment as consumed by `process_comment` (fields `id`, `text`,
`username`; the timestamp and permalink only feed log lines and record
contents). -/
structure Comment where
  id : List Char
  text : List Char
  username : List Char
deriving DecidableEq

/-- External calls made during the handling of one comment.  `storeCheck` is
`db.check_comment_processed`, `storeGetUser` is `db.get_or_create_user`,
`storeGetPic` is `db.get_user_profile_picture`, `acquire` is
`scrape_profile_picture` (the Apify submit/poll/fetch sequence), `deploy` is
`deploy_token_on_pumpfun` (tagged with the comment id whose handling makes
the call), `notifyOk`/`notifyErr` are `reply_to_comment`/`reply_with_error`,
and `storeSave` is `db.save_deployment` with status `SUCCESS` (`true`) or
`FAILED` (`false`). -/
inductive Event where
  | storeCheck (id : List Char)
  | storeGetUser (username : List Char)
  | storeGetPic (username : List Char)
  | acquire (username : List Char)
  | deploy (id name ticker : List Char)
  | notifyOk (id : List Char)
  | notifyErr (id : List Char)
  | storeSave (id : List Char) (ok : Bool)
deriving DecidableEq

/-- Terminal outcome of `process_comment` for one comment, one constructor
per `return` path of lines 386-601.  `deploySuccess` covers both the normal
completion at line 563 and the run where the record-file write raises after
the successful deployment (the two are distinguished by whether the id
entered the seen-set, see `finishDeploy`). -/
inductive Outcome where
  | alreadySeen
  | alreadyProcessed
  | notMentioned
  | invalidCommand
  | acquisitionFailed
  | deploySuccess
  | deployFailure
deriving DecidableEq

/-- Responses of the external collaborators during one handling.

* `dbCheck`: what `DatabaseService._call_db 'check-comment'` yields; `none`
  models a Store failure (`_call_db` catches every exception and returns
  `None`), `some b` a JSON boolean answer.  `check_comment_processed`
  reduces this with `result is True`, i.e. only `some true` counts.
* `getUser` / `createUser`: `db.get_or_create_user` without / with scraped
  profile data (lines 430 and 454); `none` is a failed or absent record.
* `storedPic`: the `path` field of `db.get_user_profile_picture` (line 435).
* `scrape`: `scrape_profile_picture` (lines 107-192); `some path` is a
  downloaded picture, `none` any failure or timeout of the Apify job.
* `deployOk`: the `success` field of the `deploy_token_on_pumpfun` result
  for the given name, ticker and creator handle (the function catches all
  errors and always returns such a dict).
* `recordOk`: whether the success-path deployment-record file write of
  lines 534-561 (`os.makedirs`, `open`, `json.dump` — not wrapped in
  try/except) completes without raising. -/
structure Env where
  dbCheck : List Char → Option Bool
  getUser : List Char → Option (List Char)
  storedPic : List Char → Option (List Char)
  scrape : List Char → Option (List Char)
  createUser : List Char → Option (List Char)
  deployOk : List Char → List Char → List Char → Bool
  recordOk : Bool

/-- `db.check_comment_processed` (`src/services/database.py`, lines 56-59):
`result is True` — a Store failure (`none`) silently counts as "not
processed". -/
def checkCommentProcessed (env : Env) (id : List Char) : Bool :=
  env.dbCheck id = some true

/-- Lines 433-444: use the stored profile picture only when the user record
exists and the stored path is truthy (a nonempty string). -/
def storedPicLookup (env : Env) (username : List Char)
    (user0 : Option (List Char)) : Option (List Char) :=
  match user0 with
  | some _ =>
    match env.storedPic username with
    | some path => if path.isEmpty then none else some path
    | none => none
  | none => none

/-- Lines 459-601: the profile gate and the deploy / notify / record steps.
`pre` is the event trace accumulated before this point.  On a missing or
falsy picture path the comment is only added to the seen-set (no marker, no
reply).  Otherwise the Deployer runs once; its outcome picks the reply kind
and the `save_deployment` status.  When `user` is `none`, line 525/593
evaluates `user['id']` first, which raises inside the `try` block before the
Store is called, so no save attempt happens.  On the success path the
record-file write of lines 534-561 is unprotected: when it raises
(`recordOk = false`), the exception escapes the handler after the Deployer
call (line 470), the reply (line 493) and the save attempt (line 525), but
before `processed_comments.add` (line 601) — the seen-set is returned
unchanged, and the outcome field still records the deployment success that
already happened. -/
def finishDeploy (env : Env) (seen : List (List Char)) (c : Comment)
    (tokenName ticker : List Char) (user : Option (List Char))
    (profilePath : Option (List Char)) (pre : List Event) :
    List (List Char) × List Event × Outcome :=
  match profilePath with
  | none => (c.id :: seen, pre, Outcome.acquisitionFailed)
  | some path =>
    if path.isEmpty then (c.id :: seen, pre, Outcome.acquisitionFailed)
    else if env.deployOk tokenName ticker c.username then
      (if env.recordOk then c.id :: seen else seen,
        pre ++ [Event.deploy c.id tokenName ticker, Event.notifyOk c.id] ++
          (match user with
            | some _ => [Event.storeSave c.id true]
            | none => []),
        Outcome.deploySuccess)
    else
      (c.id :: seen,
        pre ++ [Event.deploy c.id tokenName ticker, Event.notifyErr c.id] ++
          (match user with
            | some _ => [Event.storeSave c.id false]
            | none => []),
        Outcome.deployFailure)

/-- Lines 429-601: handling of a comment whose text parsed to a valid
command — user lookup, stored-picture reuse, scraping on a miss (creating
the user record afterwards when it was absent), then `finishDeploy`. -/
def handleValid (env : Env) (seen : List (List Char)) (c : Comment)
    (tokenName ticker : List Char) : List (List Char) × List Event × Outcome :=
  match storedPicLookup env c.username (env.getUser c.username) with
  | some path =>
    finishDeploy env seen c tokenName ticker (env.getUser c.username) (some path)
      [Event.storeCheck c.id, Event.storeGetUser c.username,
        Event.storeGetPic c.username]
  | none =>
    finishDeploy env seen c tokenName ticker
      (match env.getUser c.username, env.scrape c.username with
        | none, some _ => env.createUser c.username
        | u0, _ => u0)
      (env.scrape c.username)
      ([Event.storeCheck c.id, Event.storeGetUser c.username] ++
        (match env.getUser c.username with
          | some _ => [Event.storeGetPic c.username]
          | none => []) ++
        [Event.acquire c.username] ++
        (match env.getUser c.username, env.scrape c.username with
          | none, some _ => [Event.storeGetUser c.username]
          | _, _ => []))

/-- `process_comment` (lines 379-601): the seen-set fast path, the Store
dedup check, the mention gate (substring containment of `@feedo3app` in the
lowercased text, line 406), the parser, then `handleValid`.  Returns the new
seen-set, the trace of external calls, and the terminal outcome. -/
def process_comment (env : Env) (seen : List (List Char)) (c : Comment) :
    List (List Char) × List Event × Outcome :=
  if c.id ∈ seen then (seen, [], Outcome.alreadySeen)
  else if checkCommentProcessed env c.id then
    (c.id :: seen, [Event.storeCheck c.id], Outcome.alreadyProcessed)
  else if containsSub ('@' :: OUR_USERNAME) (c.text.map Char.toLower) = false then
    (c.id :: seen, [Event.storeCheck c.id], Outcome.notMentioned)
  else
    match parse_deploy_command c.text OUR_USERNAME with
    | none => (c.id :: seen, [Event.storeCheck c.id], Outcome.invalidCommand)
    | some (tokenName, ticker) => handleValid env seen c tokenName ticker

/-- Any number of handlings in sequence, threading the seen-set, with an
arbitrary environment at every step (so Store answers may change over time,
e.g. marker writes may be delayed forever).  Polling cycles in `main`
(lines 612-663) iterate `process_comment` exactly like this: the extra
`not in processed_comments` test at line 642 duplicates the first check of
`process_comment` and does not change the trace. -/
def runSchedule : List (List Char) → List (Env × Comment) → List (List Char) × List Event
  | seen, [] => (seen, [])
  | seen, (env, c) :: rest =>
    let r := process_comment env seen c
    let r2 := runSchedule r.1 rest
    (r2.1, r.2.1 ++ r2.2)

/-- Is the event a Deployer invocation? -/
def isDeployEv : Event → Bool
  | Event.deploy _ _ _ => true
  | _ => false

/-- Is the event a Deployer invocation made while handling comment `i`? -/
def isDeployFor (i : List Char) : Event → Bool
  | Event.deploy j _ _ => j == i
  | _ => false

/-- Is the event a Notifier reply attempt (success or error reply)? -/
def isNotifyEv : Event → Bool
  | Event.notifyOk _ => true
  | Event.notifyErr _ => true
  | _ => false

/-- Is the event a `save_deployment` attempt (the only durable
processed-marker write of the code)? -/
def isSaveEv : Event → Bool
  | Event.storeSave _ _ => true
  | _ => false

/-- Number of Deployer invocations in a trace. -/
def countDeploys (evs : List Event) : Nat := evs.countP isDeployEv

/-- Number of Deployer invocations for comment id `i` in a trace. -/
def countDeploysFor (i : List Char) (evs : List Event) : Nat :=
  evs.countP (isDeployFor i)

/-- Number of Notifier reply attempts in a trace. -/
def countNotifies (evs : List Event) : Nat := evs.countP isNotifyEv

/-- Number of durable marker writes (`save_deployment` attempts) in a
trace. -/
def countSaves (evs : List Event) : Nat := evs.countP isSaveEv

/-! ### Helper lemmas about the parser embedding -/

theorem matchLit_self (p r : List Char) : matchLit p (p ++ r) = some r := by
  induction p with
  | nil => rfl
  | cons c cs ih => simp [matchLit, ih]

theorem takeWhile_append_all (p : Char → Bool) (xs ys : List Char)
    (h : ∀ c ∈ xs, p c = true) :
    (xs ++ ys).takeWhile p = xs ++ ys.takeWhile p := by
  induction xs with
  | nil => simp
  | cons a l ih =>
    simp only [List.cons_append, List.takeWhile_cons,
      h a (List.mem_cons_self a l), if_true]
    rw [ih (fun c hc => h c (List.mem_cons_of_mem a hc))]

theorem dropWhile_append_all (p : Char → Bool) (xs ys : List Char)
    (h : ∀ c ∈ xs, p c = true) :
    (xs ++ ys).dropWhile p = ys.dropWhile p := by
  induction xs with
  | nil => simp
  | cons a l ih =>
    simp only [List.cons_append, List.dropWhile_cons,
      h a (List.mem_cons_self a l), if_true]
    exact ih (fun c hc => h c (List.mem_cons_of_mem a hc))

/-- The ticker alphabet of the round-trip claim: `[A-Z0-9]`. -/
def upperTickerChars : List Char := "ABCDEFGHIJKLMNOPQRSTUVWXYZ0123456789".toList

theorem upperTicker_word : ∀ c ∈ upperTickerChars, isWordChar c = true := by decide

theorem upperTicker_alnum : ∀ c ∈ upperTickerChars, isAlnumChar c = true := by decide

theorem upperTicker_upper : ∀ c ∈ upperTickerChars, Char.toUpper c = c := by decide

theorem upperTicker_not_space : ∀ c ∈ upperTickerChars, isSpaceChar c = false := by
  decide

theorem word_not_space (c : Char) (h : isWordChar c = true) :
    isSpaceChar c = false := by
  simp only [isWordChar, Bool.or_eq_true, beq_iff_eq] at h
  rcases h with (h | h) | h
  · simp only [Char.isAlpha, Char.isUpper, Char.isLower, Bool.or_eq_true,
      Bool.and_eq_true, decide_eq_true_eq] at h
    simp only [isSpaceChar, Bool.or_eq_false_iff, beq_eq_false_iff_ne]
    rcases h with ⟨h1, h2⟩ | ⟨h1, h2⟩ <;>
      refine ⟨⟨⟨⟨⟨?_, ?_⟩, ?_⟩, ?_⟩, ?_⟩, ?_⟩ <;>
      (intro hc; subst hc; revert h1 h2; decide)
  · simp only [Char.isDigit, Bool.and_eq_true, decide_eq_true_eq] at h
    simp only [isSpaceChar, Bool.or_eq_false_iff, beq_eq_false_iff_ne]
    obtain ⟨h1, h2⟩ := h
    refine ⟨⟨⟨⟨⟨?_, ?_⟩, ?_⟩, ?_⟩, ?_⟩, ?_⟩ <;>
      (intro hc; subst hc; revert h1 h2; decide)
  · subst h; decide

theorem takeWhile_all (p : Char → Bool) (l : List Char) (h : ∀ c ∈ l, p c = true) :
    l.takeWhile p = l := by
  induction l with
  | nil => rfl
  | cons a t ih =>
    rw [List.takeWhile_cons, if_pos (h a (List.mem_cons_self a t)),
      ih (fun c hc => h c (List.mem_cons_of_mem a hc))]

theorem map_fix (f : Char → Char) (l : List Char) (h : ∀ c ∈ l, f c = c) :
    l.map f = l := by
  induction l with
  | nil => rfl
  | cons a t ih =>
    rw [List.map_cons, h a (List.mem_cons_self a t),
      ih (fun c hc => h c (List.mem_cons_of_mem a hc))]

/-- A match at the current start position makes `re.search` return it. -/
theorem searchAux_head (m : List Char → Option (List Char × List Char))
    (s : List Char) (r : List Char × List Char) (h : m s = some r) :
    searchAux m s = some r := by
  cases s with
  | nil => simpa [searchAux] using h
  | cons c cs => simp [searchAux, h]

theorem wordRun1_eq (s w rest : List Char)
    (hw : s.takeWhile isWordChar = w) (hne : w ≠ [])
    (hd : s.dropWhile isWordChar = rest) : wordRun1 s = some (w, rest) := by
  unfold wordRun1
  rw [hw, hd]
  cases w with
  | nil => exact absurd rfl hne
  | cons a t => rfl

theorem spaceRun1_eq (s sp rest : List Char)
    (hw : s.takeWhile isSpaceChar = sp) (hne : sp ≠ [])
    (hd : s.dropWhile isSpaceChar = rest) : spaceRun1 s = some rest := by
  unfold spaceRun1
  rw [hw, hd]
  cases sp with
  | nil => exact absurd rfl hne
  | cons a t => rfl

theorem matchNameTicker_roundtrip (name ticker : List Char)
    (hn0 : name ≠ []) (hnw : ∀ c ∈ name, isWordChar c = true)
    (ht0 : ticker ≠ []) (htw : ∀ c ∈ ticker, isWordChar c = true) :
    matchNameTicker (' ' :: (name ++ (' ' :: '$' :: ticker))) = some (name, ticker) := by
  obtain ⟨n₀, name', rfl⟩ := List.exists_cons_of_ne_nil hn0
  have hn₀ : isSpaceChar n₀ = false :=
    word_not_space n₀ (hnw n₀ (List.mem_cons_self _ _))
  have hw_sp : isSpaceChar ' ' = true := rfl
  have hw_w : isWordChar ' ' = false := rfl
  have e1 : spaceRun1 (' ' :: ((n₀ :: name') ++ (' ' :: '$' :: ticker)))
      = some ((n₀ :: name') ++ (' ' :: '$' :: ticker)) := by
    refine spaceRun1_eq _ [' '] _ ?_ (by simp) ?_
    · simp [List.cons_append, List.takeWhile_cons, hw_sp, hn₀]
    · simp [List.cons_append, List.dropWhile_cons, hw_sp, hn₀]
  have e2 : wordRun1 ((n₀ :: name') ++ (' ' :: '$' :: ticker))
      = some (n₀ :: name', ' ' :: '$' :: ticker) := by
    refine wordRun1_eq _ _ _ ?_ (by simp) ?_
    · rw [takeWhile_append_all _ _ _ hnw]
      simp [List.takeWhile_cons, hw_w]
    · rw [dropWhile_append_all _ _ _ hnw]
      simp [List.dropWhile_cons, hw_w]
  have e3 : spaceRun1 (' ' :: '$' :: ticker) = some ('$' :: ticker) := rfl
  have e4 : wordRun1 ticker = some (ticker, ticker.dropWhile isWordChar) :=
    wordRun1_eq _ _ _ (takeWhile_all _ _ htw) ht0 rfl
  unfold matchNameTicker
  simp only [e1, e2, e3, e4]
  simp

theorem matchP1At_roundtrip (name ticker : List Char)
    (hn0 : name ≠ []) (hnw : ∀ c ∈ name, isWordChar c = true)
    (ht0 : ticker ≠ []) (htw : ∀ c ∈ ticker, isWordChar c = true) :
    matchP1At "handle".toList
      ("@handle deploy ".toList ++ (name ++ (" $".toList ++ ticker)))
      = some (name, ticker) := by
  show matchNameTicker (' ' :: (name ++ (' ' :: '$' :: ticker))) = some (name, ticker)
  exact matchNameTicker_roundtrip name ticker hn0 hnw ht0 htw

/-- Claim C7: for every name of word characters and every ticker matching
`[A-Z0-9]{3,10}`, the string `"@handle deploy {name} ${ticker}"` parses
against target handle `handle` into a valid command whose name is the
generated name and whose ticker is the generated ticker (upper-casing the
ticker is the identity here, since it is generated upper-case). -/
theorem parser_round_trip (name ticker : List Char)
    (hn : name ≠ [] ∧ ∀ c ∈ name, isWordChar c = true)
    (ht : 3 ≤ ticker.length ∧ ticker.length ≤ 10 ∧
      ∀ c ∈ ticker, c ∈ upperTickerChars) :
    parse_deploy_command
      ("@handle deploy ".toList ++ (name ++ (" $".toList ++ ticker)))
      "handle".toList = some (name, ticker) := by
  have ht0 : ticker ≠ [] := by
    intro he
    rw [he] at ht
    simp at ht
  have htw : ∀ c ∈ ticker, isWordChar c = true :=
    fun c hc => upperTicker_word c (ht.2.2 c hc)
  have h1 := matchP1At_roundtrip name ticker hn.1 hn.2 ht0 htw
  have h2 := searchAux_head _ _ _ h1
  have hmap : ticker.map Char.toUpper = ticker :=
    map_fix _ _ (fun c hc => upperTicker_upper c (ht.2.2 c hc))
  have hv : validTicker ticker = true := by
    simp only [validTicker, Bool.and_eq_true, decide_eq_true_eq, List.all_eq_true]
    exact ⟨⟨ht.1, ht.2.1⟩, fun c hc => upperTicker_alnum c (ht.2.2 c hc)⟩
  unfold parse_deploy_command searchBoth
  simp only [h2, hmap, hv, if_true]

/-- Witness for claim C7 at the concrete pair `("Rocket", "RKT")`. -/
theorem parser_round_trip_witness :
    parse_deploy_command
      ("@handle deploy ".toList ++ ("Rocket".toList ++ (" $".toList ++ "RKT".toList)))
      "handle".toList = some ("Rocket".toList, "RKT".toList) :=
  parser_round_trip "Rocket".toList "RKT".toList (by decide) (by decide)

theorem toNat_ofNat_valid (n : Nat) (h : n.isValidChar) : (Char.ofNat n).toNat = n := by
  rw [Char.ofNat, dif_pos h]
  simp [Char.ofNatAux, Char.toNat, UInt32.toNat]

theorem toUpper_fix (c : Char) (h : ¬(97 ≤ c.toNat ∧ c.toNat ≤ 122)) :
    Char.toUpper c = c := by
  unfold Char.toUpper
  dsimp only
  rw [if_neg]
  intro hc
  exact h ⟨hc.1, hc.2⟩

theorem toUpper_toNat_not_lower (c : Char) :
    ¬(97 ≤ (Char.toUpper c).toNat ∧ (Char.toUpper c).toNat ≤ 122) := by
  unfold Char.toUpper
  dsimp only
  split
  · rename_i h
    rw [toNat_ofNat_valid _ (Or.inl (by omega))]
    omega
  · rename_i h
    intro hc
    exact h ⟨hc.1, hc.2⟩

theorem toUpper_idem (c : Char) : Char.toUpper (Char.toUpper c) = Char.toUpper c :=
  toUpper_fix _ (toUpper_toNat_not_lower c)

/-- Claim C8: a valid parse result always carries a ticker that is 3-10
characters long, alphanumeric, and upper-case (fixed by upper-casing); and a
text that matches the command shape (one of the two regex patterns) but
whose ticker fails the validity check of line 98 yields the bare invalid
result — never a partial command.  The code's rejection value
(`{'valid': False}`, here `none`) carries no reason field; the claim's
"reason invalid-ticker" is formalised as the rejection being caused by the
ticker check, which the hypotheses of the second part identify. -/
theorem parse_ticker_validity :
    (∀ text nm tk, parse_deploy_command text OUR_USERNAME = some (nm, tk) →
      3 ≤ tk.length ∧ tk.length ≤ 10 ∧ tk.all isAlnumChar = true ∧
      tk.map Char.toUpper = tk) ∧
    (∀ text nm tk, searchBoth text OUR_USERNAME = some (nm, tk) →
      validTicker (tk.map Char.toUpper) = false →
      parse_deploy_command text OUR_USERNAME = none) := by
  constructor
  · intro text nm tk h
    unfold parse_deploy_command at h
    cases hs : searchBoth text OUR_USERNAME with
    | none => rw [hs] at h; exact absurd h (by simp)
    | some g =>
      obtain ⟨n0, t0⟩ := g
      rw [hs] at h
      dsimp only at h
      by_cases hv : validTicker (t0.map Char.toUpper) = true
      · rw [if_pos hv] at h
        have h2 := Option.some.inj h
        have hnm : tk = t0.map Char.toUpper := ((Prod.mk.injEq _ _ _ _ ▸ h2).2).symm
        subst hnm
        have hval := hv
        simp only [validTicker, Bool.and_eq_true, decide_eq_true_eq] at hval
        refine ⟨hval.1.1, hval.1.2, hval.2, ?_⟩
        refine map_fix _ _ (fun c hc => ?_)
        obtain ⟨r, _, rfl⟩ := List.mem_map.mp hc
        exact toUpper_idem r
      · rw [if_neg hv] at h
        exact absurd h (by simp)
  · intro text nm tk hs hv
    unfold parse_deploy_command
    simp only [hs]
    simp [hv]

/-- Witness for claim C8: a lower-case ticker is parsed into its upper-case
3-letter form, and the same command with a 2-letter ticker is rejected with
the bare invalid result. -/
theorem parse_ticker_validity_witness :
    (3 ≤ ("RKT".toList).length ∧ ("RKT".toList).length ≤ 10 ∧
      ("RKT".toList).all isAlnumChar = true ∧
      ("RKT".toList).map Char.toUpper = "RKT".toList) ∧
    parse_deploy_command "@feedo3app deploy Rocket $AB".toList OUR_USERNAME = none :=
  ⟨parse_ticker_validity.1 "@feedo3app deploy Rocket $rkt".toList "Rocket".toList
      "RKT".toList (by decide),
    parse_ticker_validity.2 "@feedo3app deploy Rocket $AB".toList "Rocket".toList
      "AB".toList (by decide) (by decide)⟩

/-! ### Helper lemmas about the mention check -/

theorem listStarts_iff (p : List Char) : ∀ s : List Char,
    listStarts p s = true ↔ ∃ r, s = p ++ r := by
  induction p with
  | nil => intro s; simp [listStarts]
  | cons a ps ih =>
    intro s
    cases s with
    | nil =>
      simp only [listStarts, List.nil_eq, List.cons_append]
      constructor
      · intro h; cases h
      · rintro ⟨r, hr⟩; cases hr
    | cons c cs =>
      simp only [listStarts, Bool.and_eq_true, beq_iff_eq, ih, List.cons_append]
      constructor
      · rintro ⟨rfl, r, rfl⟩; exact ⟨r, rfl⟩
      · rintro ⟨r, hr⟩
        injection hr with h1 h2
        exact ⟨h1.symm, r, h2⟩

theorem containsSub_iff (p : List Char) : ∀ s : List Char,
    containsSub p s = true ↔ ∃ l r, s = l ++ p ++ r := by
  intro s
  induction s with
  | nil =>
    simp only [containsSub, List.isEmpty_iff]
    constructor
    · rintro rfl; exact ⟨[], [], rfl⟩
    · rintro ⟨l, r, h⟩
      obtain ⟨h1, h2⟩ := List.append_eq_nil.mp h.symm
      exact (List.append_eq_nil.mp h1).2
  | cons c cs ih =>
    simp only [containsSub, Bool.or_eq_true, listStarts_iff, ih]
    constructor
    · rintro (⟨r, hr⟩ | ⟨l, r, rfl⟩)
      · exact ⟨[], r, by simpa using hr⟩
      · exact ⟨c :: l, r, rfl⟩
    · rintro ⟨l, r, h⟩
      cases l with
      | nil => exact Or.inl ⟨r, by simpa using h⟩
      | cons x xs =>
        right
        rw [List.cons_append, List.cons_append] at h
        injection h with h1 h2
        exact ⟨xs, r, by rw [h2, List.append_assoc]⟩

theorem matchLit_starts (p : List Char) : ∀ (s r : List Char),
    matchLit p s = some r → (∀ c ∈ p, c.toLower = c) →
    listStarts p (s.map Char.toLower) = true := by
  induction p with
  | nil => intro s r _ _; rfl
  | cons a ps ih =>
    intro s r h hl
    cases s with
    | nil => exact absurd h (by simp [matchLit])
    | cons c cs =>
      simp only [matchLit] at h
      by_cases hc : c.toLower = a.toLower
      · rw [if_pos hc] at h
        simp only [List.map_cons, listStarts, Bool.and_eq_true, beq_iff_eq]
        refine ⟨?_, ih cs r h (fun x hx => hl x (List.mem_cons_of_mem _ hx))⟩
        rw [hc, hl a (List.mem_cons_self _ _)]
      · rw [if_neg hc] at h
        exact absurd h (by simp)

theorem matchLit_none (p s : List Char) (hl : ∀ c ∈ p, c.toLower = c)
    (h : listStarts p (s.map Char.toLower) = false) : matchLit p s = none := by
  cases hm : matchLit p s with
  | none => rfl
  | some r => rw [matchLit_starts p s r hm hl] at h; exact absurd h (by simp)

theorem searchAux_none_of_not_contains (u : List Char)
    (hl : ∀ c ∈ '@' :: u, c.toLower = c) : ∀ s : List Char,
    containsSub ('@' :: u) (s.map Char.toLower) = false →
    searchAux (matchP1At u) s = none ∧ searchAux (matchP2At u) s = none := by
  intro s
  induction s with
  | nil => intro _; exact ⟨rfl, rfl⟩
  | cons c cs ih =>
    intro h
    rw [List.map_cons] at h
    simp only [containsSub, Bool.or_eq_false_iff] at h
    have hm : matchLit ('@' :: u) (c :: cs) = none := by
      apply matchLit_none _ _ hl
      rw [List.map_cons]
      exact h.1
    obtain ⟨ih1, ih2⟩ := ih h.2
    constructor
    · simp only [searchAux]
      rw [show matchP1At u (c :: cs) = none by unfold matchP1At; rw [hm]]
      exact ih1
    · simp only [searchAux]
      rw [show matchP2At u (c :: cs) = none by unfold matchP2At; rw [hm]]
      exact ih2

theorem parse_none_of_not_mentioned (text : List Char)
    (h : containsSub ('@' :: OUR_USERNAME) (text.map Char.toLower) = false) :
    parse_deploy_command text OUR_USERNAME = none := by
  have hl : ∀ c ∈ '@' :: OUR_USERNAME, c.toLower = c := by decide
  obtain ⟨h1, h2⟩ := searchAux_none_of_not_contains OUR_USERNAME hl text h
  unfold parse_deploy_command searchBoth
  simp only [h1, h2]

/-! ### Helper lemmas about the orchestrator embedding -/

theorem handleValid_seen_shape (env : Env) (seen : List (List Char)) (c : Comment)
    (n t : List Char) :
    (handleValid env seen c n t).1 = seen ∨
    (handleValid env seen c n t).1 = c.id :: seen := by
  unfold handleValid finishDeploy
  repeat' split
  all_goals simp

theorem handleValid_seen_mem (env : Env) (seen : List (List Char)) (c : Comment)
    (n t : List Char) (hrec : env.recordOk = true) :
    c.id ∈ (handleValid env seen c n t).1 := by
  unfold handleValid finishDeploy
  repeat' split
  all_goals simp_all

theorem handleValid_deploy_count (env : Env) (seen : List (List Char)) (c : Comment)
    (n t : List Char) :
    countDeploys (handleValid env seen c n t).2.1 =
      (if (handleValid env seen c n t).2.2 = Outcome.deploySuccess ∨
          (handleValid env seen c n t).2.2 = Outcome.deployFailure then 1 else 0) := by
  unfold handleValid finishDeploy
  repeat' split
  all_goals simp_all [countDeploys, isDeployEv, List.countP_append, List.countP_cons]

theorem handleValid_notify_count (env : Env) (seen : List (List Char)) (c : Comment)
    (n t : List Char) :
    countNotifies (handleValid env seen c n t).2.1 =
      (if (handleValid env seen c n t).2.2 = Outcome.deploySuccess ∨
          (handleValid env seen c n t).2.2 = Outcome.deployFailure then 1 else 0) := by
  unfold handleValid finishDeploy
  repeat' split
  all_goals simp_all [countNotifies, isNotifyEv, List.countP_append, List.countP_cons]

theorem handleValid_save_count (env : Env) (seen : List (List Char)) (c : Comment)
    (n t : List Char) :
    countSaves (handleValid env seen c n t).2.1 ≤ 1 ∧
    (countSaves (handleValid env seen c n t).2.1 = 0 ∨
      (handleValid env seen c n t).2.2 = Outcome.deploySuccess ∨
      (handleValid env seen c n t).2.2 = Outcome.deployFailure) := by
  unfold handleValid finishDeploy
  repeat' split
  all_goals simp_all [countSaves, isSaveEv, List.countP_append, List.countP_cons]

theorem handleValid_deploy_tag (env : Env) (seen : List (List Char)) (c : Comment)
    (n t : List Char) : ∀ i nm tk,
    Event.deploy i nm tk ∈ (handleValid env seen c n t).2.1 → i = c.id := by
  intro i nm tk
  unfold handleValid finishDeploy
  repeat' split
  all_goals intro h
  all_goals simp_all

theorem process_comment_seen_mem (env : Env) (seen : List (List Char)) (c : Comment)
    (hrec : env.recordOk = true) :
    c.id ∈ (process_comment env seen c).1 := by
  unfold process_comment
  repeat' split
  all_goals first
    | exact handleValid_seen_mem env seen c _ _ hrec
    | simp_all

theorem process_comment_seen_shape (env : Env) (seen : List (List Char)) (c : Comment) :
    (process_comment env seen c).1 = seen ∨
    (process_comment env seen c).1 = c.id :: seen := by
  unfold process_comment
  repeat' split
  all_goals first
    | exact handleValid_seen_shape env seen c _ _
    | simp

theorem process_comment_of_seen (env : Env) (seen : List (List Char)) (c : Comment)
    (h : c.id ∈ seen) : process_comment env seen c = (seen, [], Outcome.alreadySeen) := by
  unfold process_comment
  rw [if_pos h]

theorem process_comment_deploy_tag (env : Env) (seen : List (List Char)) (c : Comment) :
    ∀ i nm tk, Event.deploy i nm tk ∈ (process_comment env seen c).2.1 → i = c.id := by
  intro i nm tk
  unfold process_comment
  repeat' split
  all_goals intro h
  all_goals first
    | exact handleValid_deploy_tag env seen c _ _ i nm tk h
    | simp_all

theorem process_comment_deploy_count (env : Env) (seen : List (List Char)) (c : Comment) :
    countDeploys (process_comment env seen c).2.1 ≤ 1 := by
  unfold process_comment
  repeat' split
  all_goals first
    | (rw [handleValid_deploy_count]; split <;> simp)
    | simp [countDeploys, isDeployEv, List.countP_cons, List.countP_nil]

theorem process_comment_notify_count (env : Env) (seen : List (List Char)) (c : Comment) :
    countNotifies (process_comment env seen c).2.1 =
      (if (process_comment env seen c).2.2 = Outcome.deploySuccess ∨
          (process_comment env seen c).2.2 = Outcome.deployFailure then 1 else 0) := by
  unfold process_comment
  repeat' split
  all_goals first
    | (rw [handleValid_notify_count]; simp_all)
    | simp_all [countNotifies, isNotifyEv, List.countP_cons, List.countP_nil]

theorem process_comment_save_count (env : Env) (seen : List (List Char)) (c : Comment) :
    countSaves (process_comment env seen c).2.1 ≤ 1 ∧
    (countSaves (process_comment env seen c).2.1 = 0 ∨
      (process_comment env seen c).2.2 = Outcome.deploySuccess ∨
      (process_comment env seen c).2.2 = Outcome.deployFailure) := by
  unfold process_comment
  repeat' split
  all_goals first
    | exact handleValid_save_count env seen c _ _
    | simp [countSaves, isSaveEv, List.countP_cons, List.countP_nil]

theorem runSchedule_cons (seen : List (List Char)) (env : Env) (c : Comment)
    (rest : List (Env × Comment)) :
    runSchedule seen ((env, c) :: rest)
      = ((runSchedule (process_comment env seen c).1 rest).1,
         (process_comment env seen c).2.1 ++
           (runSchedule (process_comment env seen c).1 rest).2) := rfl

theorem countDeploysFor_append (i : List Char) (a b : List Event) :
    countDeploysFor i (a ++ b) = countDeploysFor i a + countDeploysFor i b := by
  unfold countDeploysFor
  rw [List.countP_append]

theorem countDeploysFor_le (i : List Char) (evs : List Event) :
    countDeploysFor i evs ≤ countDeploys evs := by
  unfold countDeploysFor countDeploys
  apply List.countP_mono_left
  intro e _ h
  cases e <;> simp_all [isDeployFor, isDeployEv]

theorem countDeploysFor_eq_zero (i : List Char) (evs : List Event)
    (h : ∀ nm tk, Event.deploy i nm tk ∉ evs) : countDeploysFor i evs = 0 := by
  unfold countDeploysFor
  rw [List.countP_eq_zero]
  intro e he hc
  cases e <;> simp [isDeployFor] at hc
  subst hc
  exact h _ _ he

theorem runSchedule_deploys_of_seen (i : List Char) :
    ∀ (sched : List (Env × Comment)) (seen : List (List Char)), i ∈ seen →
      countDeploysFor i (runSchedule seen sched).2 = 0 := by
  intro sched
  induction sched with
  | nil => intro seen _; rfl
  | cons p rest ih =>
    obtain ⟨env, c⟩ := p
    intro seen h
    rw [runSchedule_cons, countDeploysFor_append]
    have h1 : countDeploysFor i (process_comment env seen c).2.1 = 0 := by
      apply countDeploysFor_eq_zero
      intro nm tk hmem
      have hic := process_comment_deploy_tag env seen c i nm tk hmem
      subst hic
      rw [process_comment_of_seen env seen c h] at hmem
      simp at hmem
    have h2 : i ∈ (process_comment env seen c).1 := by
      rcases process_comment_seen_shape env seen c with hs | hs <;> rw [hs]
      · exact h
      · exact List.mem_cons_of_mem _ h
    rw [h1, ih _ h2]

theorem runSchedule_deploys_le_one (i : List Char) :
    ∀ (sched : List (Env × Comment)) (seen : List (List Char)),
      (∀ p ∈ sched, (p.1).recordOk = true) →
      countDeploysFor i (runSchedule seen sched).2 ≤ 1 := by
  intro sched
  induction sched with
  | nil => intro seen _; simp [runSchedule, countDeploysFor]
  | cons p rest ih =>
    obtain ⟨env, c⟩ := p
    intro seen hrec
    have hrec0 : env.recordOk = true := hrec (env, c) (List.mem_cons_self _ _)
    have hrecr : ∀ q ∈ rest, (q.1).recordOk = true :=
      fun q hq => hrec q (List.mem_cons_of_mem _ hq)
    by_cases hseen : i ∈ seen
    · rw [runSchedule_deploys_of_seen i ((env, c) :: rest) seen hseen]
      omega
    · rw [runSchedule_cons, countDeploysFor_append]
      by_cases hc : c.id = i
      · subst hc
        have h1 : countDeploysFor c.id (process_comment env seen c).2.1 ≤ 1 :=
          le_trans (countDeploysFor_le _ _) (process_comment_deploy_count env seen c)
        have h2 := runSchedule_deploys_of_seen c.id rest (process_comment env seen c).1
          (process_comment_seen_mem env seen c hrec0)
        omega
      · have h1 : countDeploysFor i (process_comment env seen c).2.1 = 0 := by
          apply countDeploysFor_eq_zero
          intro nm tk hmem
          exact hc (process_comment_deploy_tag env seen c i nm tk hmem).symm
        have h2 := ih (process_comment env seen c).1 hrecr
        omega


/-! ### Concrete fixtures used by witnesses and counterexamples -/

/-- A comment carrying a well-formed deploy command. -/
def cRocket : Comment :=
  ⟨"c1".toList, "@feedo3app deploy Rocket $RKT".toList, "alice".toList⟩

/-- A comment that does not mention the account. -/
def cHello : Comment := ⟨"c2".toList, "hello world".toList, "bob".toList⟩

/-- A command-shaped comment with a 2-character (invalid) ticker. -/
def cBadTicker : Comment :=
  ⟨"c3".toList, "@feedo3app deploy Rocket $AB".toList, "carol".toList⟩

/-- A comment mentioning a longer handle of which the target is a proper
prefix. -/
def cLongerHandle : Comment :=
  ⟨"c4".toList, "@feedo3app2 deploy Rocket $RKT".toList, "dave".toList⟩

/-- Store answers "already processed" for every id; nothing else matters. -/
def envMarked : Env :=
  ⟨fun _ => some true, fun _ => none, fun _ => none, fun _ => none,
    fun _ => none, fun _ _ _ => true, true⟩

/-- Healthy collaborators: Store says "not processed", the user record
exists, no cached picture, scraping succeeds, the Deployer succeeds. -/
def envFresh : Env :=
  ⟨fun _ => some false, fun _ => some "u1".toList, fun _ => none,
    fun _ => some "pic.jpg".toList, fun _ => none, fun _ _ _ => true, true⟩

/-- Store unavailable: every `_call_db` returns `None`; scraping and the
Deployer succeed. -/
def envDown : Env :=
  ⟨fun _ => none, fun _ => none, fun _ => none,
    fun _ => some "pic.jpg".toList, fun _ => some "u1".toList, fun _ _ _ => true,
    true⟩

/-- Asset acquisition fails: no stored picture and scraping returns
nothing. -/
def envNoScrape : Env :=
  ⟨fun _ => some false, fun _ => none, fun _ => none, fun _ => none,
    fun _ => none, fun _ _ _ => true, true⟩

/-- The user record exists but holds no stored picture, and scraping
fails; everything else is healthy. -/
def envUserNoPic : Env :=
  ⟨fun _ => some false, fun _ => some "u1".toList, fun _ => none,
    fun _ => none, fun _ => none, fun _ _ _ => true, true⟩

/-- Healthy Deployer and Acquirer, but the Store never shows a marker
(writes delayed or failing) and the success-path record-file write raises
(`recordOk = false`). -/
def envCrash : Env :=
  ⟨fun _ => some false, fun _ => some "u1".toList, fun _ => none,
    fun _ => some "pic.jpg".toList, fun _ => none, fun _ _ _ => true, false⟩

/-! ### Claim theorems -/

/-- Claim C1: when the Store already holds a ProcessedMarker for the
comment id (`check_comment_processed` answers true), re-observing the
comment adds its id to the in-memory seen-set and the handling stops with
at most the Store existence check in its trace — the Deployer and the
Notifier are not invoked for that id. -/
theorem marker_blocks_reprocessing (env : Env) (seen : List (List Char)) (c : Comment)
    (h : env.dbCheck c.id = some true) :
    c.id ∈ (process_comment env seen c).1 ∧
    ((process_comment env seen c).2.1 = [] ∨
      (process_comment env seen c).2.1 = [Event.storeCheck c.id]) ∧
    countDeploys (process_comment env seen c).2.1 = 0 ∧
    countNotifies (process_comment env seen c).2.1 = 0 := by
  by_cases hs : c.id ∈ seen
  · rw [process_comment_of_seen env seen c hs]
    exact ⟨hs, Or.inl rfl, rfl, rfl⟩
  · have hr : process_comment env seen c
        = (c.id :: seen, [Event.storeCheck c.id], Outcome.alreadyProcessed) := by
      unfold process_comment
      rw [if_neg hs, if_pos (by simp [checkCommentProcessed, h])]
    rw [hr]
    exact ⟨List.mem_cons_self _ _, Or.inr rfl, rfl, rfl⟩

/-- Witness for claim C1 at a marked Store and a command comment. -/
theorem marker_blocks_reprocessing_witness :
    cRocket.id ∈ (process_comment envMarked [] cRocket).1 ∧
    ((process_comment envMarked [] cRocket).2.1 = [] ∨
      (process_comment envMarked [] cRocket).2.1 = [Event.storeCheck cRocket.id]) ∧
    countDeploys (process_comment envMarked [] cRocket).2.1 = 0 ∧
    countNotifies (process_comment envMarked [] cRocket).2.1 = 0 :=
  marker_blocks_reprocessing envMarked [] cRocket rfl

/-- Counterexample to claim C2 as stated: the in-memory seen-set alone
does not suffice.  The success-path record-file write
(`complete_workflow.py`, lines 534-561) is not wrapped in try/except and
runs after the Deployer call and before `processed_comments.add`
(line 601); when it raises, the id never enters the seen-set.  With the
Store never showing a marker (writes delayed or failing), a second cycle
observing the same comment re-invokes the Deployer: two deploy events for
one comment id within one process run. -/
theorem seen_set_alone_insufficient :
    countDeploysFor cRocket.id
      (runSchedule [] [(envCrash, cRocket), (envCrash, cRocket)]).2 = 2 := by decide

/-- Claim C2 as amended: across any number of handlings within one process
run (empty initial seen-set, arbitrary comments, arbitrary — even
adversarial or always-failing — Store, Acquirer and Deployer responses at
every step), the Deployer is invoked at most once per comment id, provided
every handling completes its handler, i.e. the success-path record-file
write never raises.  Under that proviso the seen-set add at line 601 always
executes, and the bound needs no assumption on the Store's answers: it
holds even when marker writes are delayed forever or always fail. -/
theorem at_most_one_deploy_per_id (sched : List (Env × Comment)) (i : List Char)
    (hrec : ∀ p ∈ sched, (p.1).recordOk = true) :
    countDeploysFor i (runSchedule [] sched).2 ≤ 1 :=
  runSchedule_deploys_le_one i sched [] hrec

/-- Witness for the amended claim C2: two healthy cycles over the same
comment stay within the bound. -/
theorem at_most_one_deploy_per_id_witness :
    countDeploysFor cRocket.id
      (runSchedule [] [(envFresh, cRocket), (envFresh, cRocket)]).2 ≤ 1 :=
  at_most_one_deploy_per_id [(envFresh, cRocket), (envFresh, cRocket)]
    cRocket.id (by decide)

/-- Claim C3 (evidence of the code bug): when the Store is unavailable
(`_call_db` yields `None` for the processed check), `check_comment_processed`
silently answers `False` (`result is True`), the handling proceeds, and the
Deployer IS invoked for a comment whose processed status could not be
determined — the handling is not aborted as the specification demands. -/
theorem store_outage_still_deploys :
    envDown.dbCheck cRocket.id = none ∧
    (process_comment envDown [] cRocket).2.2 = Outcome.deploySuccess ∧
    countDeploys (process_comment envDown [] cRocket).2.1 = 1 := by decide

/-- Claim C9: a comment whose text does not contain `@feedo3app`
(case-insensitively) is rejected at the mention gate: the outcome is the
not-mentioned rejection, the only external call is the Store existence
check (no Acquirer, Deployer, Notifier or further Store call), the id goes
into the seen-set, and the parser returns the invalid result as well. -/
theorem not_mentioned_rejection (env : Env) (seen : List (List Char)) (c : Comment)
    (h1 : c.id ∉ seen) (h2 : env.dbCheck c.id ≠ some true)
    (h3 : containsSub ('@' :: OUR_USERNAME) (c.text.map Char.toLower) = false) :
    (process_comment env seen c).2.2 = Outcome.notMentioned ∧
    (process_comment env seen c).2.1 = [Event.storeCheck c.id] ∧
    c.id ∈ (process_comment env seen c).1 ∧
    parse_deploy_command c.text OUR_USERNAME = none := by
  have hcp : ¬(checkCommentProcessed env c.id = true) := by
    simp only [checkCommentProcessed, decide_eq_true_eq]
    exact h2
  have hr : process_comment env seen c
      = (c.id :: seen, [Event.storeCheck c.id], Outcome.notMentioned) := by
    unfold process_comment
    rw [if_neg h1, if_neg hcp, if_pos h3]
  rw [hr]
  exact ⟨rfl, rfl, List.mem_cons_self _ _, parse_none_of_not_mentioned c.text h3⟩

/-- Witness for claim C9 at the comment `"hello world"`. -/
theorem not_mentioned_rejection_witness :
    (process_comment envFresh [] cHello).2.2 = Outcome.notMentioned ∧
    (process_comment envFresh [] cHello).2.1 = [Event.storeCheck cHello.id] ∧
    cHello.id ∈ (process_comment envFresh [] cHello).1 ∧
    parse_deploy_command cHello.text OUR_USERNAME = none :=
  not_mentioned_rejection envFresh [] cHello (by decide) (by decide) (by decide)

theorem handleValid_outcome (env : Env) (seen : List (List Char)) (c : Comment)
    (n t : List Char) :
    (handleValid env seen c n t).2.2 = Outcome.acquisitionFailed ∨
    (handleValid env seen c n t).2.2 = Outcome.deploySuccess ∨
    (handleValid env seen c n t).2.2 = Outcome.deployFailure := by
  unfold handleValid finishDeploy
  repeat' split
  all_goals simp

/-- The comment filter of `fetch_mentions`
(`src/scripts/check_mentions.py`, lines 86-87): keep exactly the comments
whose lowercased text contains `@feedo3app`. -/
def fetch_mentions_filter (texts : List (List Char)) : List (List Char) :=
  texts.filter (fun t => containsSub ('@' :: OUR_USERNAME) (t.map Char.toLower))

/-- Claim C10: the mention gate is plain substring containment of
`@feedo3app` in the lowercased text — characterised as the existence of a
substring decomposition — and any comment passing it (including texts whose
only mention is a longer handle such as `@feedo3app2`, of which the target
is a proper prefix) is treated as mentioning the target: the orchestrator
never classifies it as not-mentioned, and `fetch_mentions` keeps it. -/
theorem mention_is_substring :
    (∀ s : List Char,
      containsSub ('@' :: OUR_USERNAME) (s.map Char.toLower) = true ↔
      ∃ l r, s.map Char.toLower = l ++ ('@' :: OUR_USERNAME) ++ r) ∧
    (∀ (env : Env) (seen : List (List Char)) (c : Comment), c.id ∉ seen →
      env.dbCheck c.id ≠ some true →
      containsSub ('@' :: OUR_USERNAME) (c.text.map Char.toLower) = true →
      (process_comment env seen c).2.2 ≠ Outcome.notMentioned) ∧
    (∀ (ts : List (List Char)) (t : List Char), t ∈ ts →
      containsSub ('@' :: OUR_USERNAME) (t.map Char.toLower) = true →
      t ∈ fetch_mentions_filter ts) := by
  refine ⟨fun s => containsSub_iff _ _, ?_, ?_⟩
  · intro env seen c h1 h2 h3
    have hcp : ¬(checkCommentProcessed env c.id = true) := by
      simp only [checkCommentProcessed, decide_eq_true_eq]
      exact h2
    unfold process_comment
    rw [if_neg h1, if_neg hcp, if_neg (by simp [h3])]
    cases hp : parse_deploy_command c.text OUR_USERNAME with
    | none => simp
    | some g =>
      obtain ⟨nm, tk⟩ := g
      rcases handleValid_outcome env seen c nm tk with h | h | h <;> simp [h]
  · intro ts t ht hc
    exact List.mem_filter.mpr ⟨ht, hc⟩

/-- Witness for claim C10: a comment whose only mention is the longer
handle `@feedo3app2` passes the gate and is not classified not-mentioned. -/
theorem mention_is_substring_witness :
    (process_comment envFresh [] cLongerHandle).2.2 ≠ Outcome.notMentioned ∧
    cLongerHandle.text ∈ fetch_mentions_filter [cLongerHandle.text] :=
  ⟨mention_is_substring.2.1 envFresh [] cLongerHandle (by decide) (by decide) (by decide),
    mention_is_substring.2.2 [cLongerHandle.text] cLongerHandle.text
      (List.mem_cons_self _ _) (by decide)⟩

/-- The user record available at `save_deployment` time (lines 430 and
453-454): the get-or-create result, re-attempted with the scraped profile
data when the first lookup returned nothing and scraping succeeded. -/
def resolvedUser (env : Env) (username : List Char) : Option (List Char) :=
  match env.getUser username, env.scrape username with
  | none, some _ => env.createUser username
  | u0, _ => u0

theorem handleValid_save_eq (env : Env) (seen : List (List Char)) (c : Comment)
    (n t : List Char) :
    ((handleValid env seen c n t).2.2 = Outcome.deploySuccess ∨
      (handleValid env seen c n t).2.2 = Outcome.deployFailure) →
    countSaves (handleValid env seen c n t).2.1
      = (if (resolvedUser env c.username).isSome then 1 else 0) := by
  unfold handleValid finishDeploy resolvedUser
  repeat' split
  all_goals intro h
  all_goals simp_all [countSaves, isSaveEv, storedPicLookup,
    List.countP_append, List.countP_cons]

theorem process_comment_save_eq (env : Env) (seen : List (List Char)) (c : Comment) :
    ((process_comment env seen c).2.2 = Outcome.deploySuccess ∨
      (process_comment env seen c).2.2 = Outcome.deployFailure) →
    countSaves (process_comment env seen c).2.1
      = (if (resolvedUser env c.username).isSome then 1 else 0) := by
  intro h
  by_cases hs : c.id ∈ seen
  · rw [process_comment_of_seen env seen c hs] at h
    simp at h
  · by_cases hcp : checkCommentProcessed env c.id = true
    · have hr : process_comment env seen c
          = (c.id :: seen, [Event.storeCheck c.id], Outcome.alreadyProcessed) := by
        unfold process_comment
        rw [if_neg hs, if_pos hcp]
      rw [hr] at h
      simp at h
    · by_cases hm : containsSub ('@' :: OUR_USERNAME) (c.text.map Char.toLower) = false
      · have hr : process_comment env seen c
            = (c.id :: seen, [Event.storeCheck c.id], Outcome.notMentioned) := by
          unfold process_comment
          rw [if_neg hs, if_neg hcp, if_pos hm]
        rw [hr] at h
        simp at h
      · cases hp : parse_deploy_command c.text OUR_USERNAME with
        | none =>
          have hr : process_comment env seen c
              = (c.id :: seen, [Event.storeCheck c.id], Outcome.invalidCommand) := by
            unfold process_comment
            rw [if_neg hs, if_neg hcp, if_neg hm]
            simp only [hp]
          rw [hr] at h
          simp at h
        | some g =>
          obtain ⟨nm, tk⟩ := g
          have hr : process_comment env seen c = handleValid env seen c nm tk := by
            unfold process_comment
            rw [if_neg hs, if_neg hcp, if_neg hm]
            simp only [hp]
          rw [hr] at h ⊢
          exact handleValid_save_eq env seen c nm tk h

/-- Counterexample to claim C4 as stated: a comment that reaches the
terminal not-mentioned rejection writes no ProcessedMarker at all — the
only durable-write call of the handler, `save_deployment`, is never
reached for rejections. -/
theorem rejection_writes_no_marker :
    (process_comment envFresh [] cHello).2.2 = Outcome.notMentioned ∧
    countSaves (process_comment envFresh [] cHello).2.1 = 0 := by decide

/-- Claim C4 as amended: a handling makes at most one durable marker write
(`save_deployment`); a write can happen only when the terminal outcome is a
deployment success or failure, and for those outcomes exactly one write
attempt is made when a user record was resolved (and none otherwise, since
`user['id']` raises inside the `try` block first).  Rejections and
acquisition failures are recorded only in the in-memory seen-set. -/
theorem marker_write_characterization (env : Env) (seen : List (List Char))
    (c : Comment) :
    countSaves (process_comment env seen c).2.1 ≤ 1 ∧
    (countSaves (process_comment env seen c).2.1 = 0 ∨
      (process_comment env seen c).2.2 = Outcome.deploySuccess ∨
      (process_comment env seen c).2.2 = Outcome.deployFailure) ∧
    (((process_comment env seen c).2.2 = Outcome.deploySuccess ∨
      (process_comment env seen c).2.2 = Outcome.deployFailure) →
      countSaves (process_comment env seen c).2.1
        = (if (resolvedUser env c.username).isSome then 1 else 0)) :=
  ⟨(process_comment_save_count env seen c).1,
    (process_comment_save_count env seen c).2,
    process_comment_save_eq env seen c⟩

/-- Witness for the amended claim C4: on the healthy path, the deployment
success writes exactly one marker. -/
theorem marker_write_characterization_witness :
    countSaves (process_comment envFresh [] cRocket).2.1 = 1 := by
  have h := (marker_write_characterization envFresh [] cRocket).2.2 (Or.inl (by decide))
  rw [h]
  decide

/-- Counterexample to claim C5 as stated: an invalid-command rejection is a
terminal outcome other than not-mentioned, yet no reply attempt is made —
the handler returns at line 419 before any Notifier call. -/
theorem invalid_command_sends_no_reply :
    (process_comment envFresh [] cBadTicker).2.2 = Outcome.invalidCommand ∧
    countNotifies (process_comment envFresh [] cBadTicker).2.1 = 0 := by decide

/-- Claim C5 as amended: the number of Notifier reply attempts of a
handling is exactly one when the terminal outcome is a deployment success
or failure, and zero for every other outcome (not-mentioned and
invalid-command rejections, acquisition failures, and skips). -/
theorem reply_attempts_characterization (env : Env) (seen : List (List Char))
    (c : Comment) :
    countNotifies (process_comment env seen c).2.1 =
      (if (process_comment env seen c).2.2 = Outcome.deploySuccess ∨
          (process_comment env seen c).2.2 = Outcome.deployFailure
        then 1 else 0) :=
  process_comment_notify_count env seen c

/-- Counterexample to claim C6 as stated: on acquisition failure the
Deployer is indeed never invoked, but contrary to the claim no
ProcessedMarker is written and the Notifier is not called either — the
handler returns at line 462 having only added the id to the seen-set. -/
theorem acquisition_failure_silent :
    (process_comment envNoScrape [] cRocket).2.2 = Outcome.acquisitionFailed ∧
    countDeploys (process_comment envNoScrape [] cRocket).2.1 = 0 ∧
    countSaves (process_comment envNoScrape [] cRocket).2.1 = 0 ∧
    countNotifies (process_comment envNoScrape [] cRocket).2.1 = 0 := by decide

/-- Claim C6 as amended: for a comment carrying a valid command whose
avatar acquisition fails — no usable stored picture (whether or not a user
record exists) and scraping returns nothing or an empty path — the
Deployer is never invoked; but no Failure marker is written and no failure
notification is sent — the comment is only added to the in-memory
seen-set with the acquisition-failed outcome (line 462). -/
theorem acquisition_failure_behaviour (env : Env) (seen : List (List Char))
    (c : Comment)
    (h1 : c.id ∉ seen) (h2 : env.dbCheck c.id ≠ some true)
    (h3 : containsSub ('@' :: OUR_USERNAME) (c.text.map Char.toLower) = true)
    (h4 : ∃ nm tk, parse_deploy_command c.text OUR_USERNAME = some (nm, tk))
    (h5 : storedPicLookup env c.username (env.getUser c.username) = none)
    (h6 : env.scrape c.username = none ∨ env.scrape c.username = some []) :
    (process_comment env seen c).2.2 = Outcome.acquisitionFailed ∧
    countDeploys (process_comment env seen c).2.1 = 0 ∧
    countNotifies (process_comment env seen c).2.1 = 0 ∧
    countSaves (process_comment env seen c).2.1 = 0 ∧
    c.id ∈ (process_comment env seen c).1 := by
  obtain ⟨nm, tk, hp⟩ := h4
  have hcp : ¬(checkCommentProcessed env c.id = true) := by
    simp only [checkCommentProcessed, decide_eq_true_eq]
    exact h2
  have hr : process_comment env seen c = handleValid env seen c nm tk := by
    unfold process_comment
    rw [if_neg h1, if_neg hcp, if_neg (by simp [h3])]
    simp only [hp]
  rw [hr]
  unfold handleValid
  simp only [h5]
  cases hu : env.getUser c.username with
  | none =>
    rcases h6 with h6 | h6 <;>
      simp [hu, h6, finishDeploy, countDeploys, countNotifies, countSaves,
        isDeployEv, isNotifyEv, isSaveEv, List.countP_append, List.countP_cons]
  | some r =>
    rcases h6 with h6 | h6 <;>
      simp [hu, h6, finishDeploy, countDeploys, countNotifies, countSaves,
        isDeployEv, isNotifyEv, isSaveEv, List.countP_append, List.countP_cons]

/-- Witness for the amended claim C6 at a failing Acquirer, in the case
where the user record exists but holds no stored picture. -/
theorem acquisition_failure_behaviour_witness :
    (process_comment envUserNoPic [] cRocket).2.2 = Outcome.acquisitionFailed ∧
    countDeploys (process_comment envUserNoPic [] cRocket).2.1 = 0 ∧
    countNotifies (process_comment envUserNoPic [] cRocket).2.1 = 0 ∧
    countSaves (process_comment envUserNoPic [] cRocket).2.1 = 0 ∧
    cRocket.id ∈ (process_comment envUserNoPic [] cRocket).1 :=
  acquisition_failure_behaviour envUserNoPic [] cRocket (by decide) (by decide)
    (by decide) ⟨"Rocket".toList, "RKT".toList, by decide⟩ (by decide) (Or.inl rfl)
